import Mathlib

/-!
Formal model of the minidbg fault-localization debugger
(src/src/minidbg.cpp plus its class declaration).

C++ strings are modelled as lists of characters; the two splitting helpers
of the source (the std::getline based split used by handle_command and the
strtok based split used by the batch driver) are modelled as structural
recursions with the same observable behaviour.  std::set and the key set of
std::map become Finset; std::map<int,int> becomes an association list.
Machine integers that matter (the program counter, a uint64_t) are natural
numbers reduced modulo 2^64 at the operations that can wrap.  C++ code that
throws (std::out_of_range from the line lookup) is modelled with Except,
and undefined behaviour from out-of-bounds std::vector indexing is modelled
by returning none from an Option valued interpreter.
-/

/-- Model of the getline-based overload split(const std::string, char)
(minidbg.cpp lines 409-419): pieces between delimiters; std::getline fails
on an exhausted stream, so the empty string yields no piece and a trailing
delimiter does not yield a trailing empty piece. -/
def splitGetline (d : Char) : List Char → List (List Char)
  | [] => []
  | c :: rest =>
    if c = d then [] :: splitGetline d rest
    else
      match splitGetline d rest with
      | [] => [[c]]
      | t :: ts => (c :: t) :: ts

/-- Plain character split keeping empty pieces (used to build the strtok
model): the list of maximal delimiter-free runs, one more than the number
of delimiters. -/
def splitCh (d : Char) : List Char → List (List Char)
  | [] => [[]]
  | c :: rest =>
    if c = d then [] :: splitCh d rest
    else
      match splitCh d rest with
      | [] => [[c]]
      | t :: ts => (c :: t) :: ts

/-- Model of the strtok-based overload split(const char *, const char *)
(minidbg.cpp lines 620-636) with the single-character delimiter set used by
main: strtok never produces empty tokens, so the result is the plain split
with empty pieces dropped. -/
def strtokSplit (d : Char) (s : List Char) : List (List Char) :=
  (splitCh d s).filter (fun t => t ≠ [])

/-- Model of is_prefix(s, of) (minidbg.cpp lines 136-139): s is no longer
than of and agrees with its first characters. -/
def isPref (s of : List Char) : Bool :=
  List.isPrefixOf s of

/-- The handler selected by the if/else-if chain of handle_command
(minidbg.cpp lines 441-501). -/
inductive Cmd where
  | cont
  | breakCmd
  | stepCmd
  | nextCmd
  | finishCmd
  | stepiCmd
  | statusCmd
  | registerCmd
  | memoryCmd
  | variablesCmd
  | backtraceCmd
  | symbolCmd
  | unknownCmd
deriving DecidableEq, Repr

def kwCont : List Char := "cont".data
def kwBreak : List Char := "break".data
def kwStep : List Char := "step".data
def kwNext : List Char := "next".data
def kwFinish : List Char := "finish".data
def kwStepi : List Char := "stepi".data
def kwStatus : List Char := "status".data
def kwRegister : List Char := "register".data
def kwMemory : List Char := "memory".data
def kwVariables : List Char := "variables".data
def kwBacktrace : List Char := "backtrace".data
def kwSymbol : List Char := "symbol".data
def kwDump : List Char := "dump".data
def kwRead : List Char := "read".data
def kwWrite : List Char := "write".data

/-- The keyword chain of handle_command in source order: the if/else-if
chain dispatches to the first keyword the command token is a prefix of. -/
def cmdChain : List (List Char × Cmd) :=
  [(kwCont, Cmd.cont), (kwBreak, Cmd.breakCmd), (kwStep, Cmd.stepCmd),
   (kwNext, Cmd.nextCmd), (kwFinish, Cmd.finishCmd), (kwStepi, Cmd.stepiCmd),
   (kwStatus, Cmd.statusCmd), (kwRegister, Cmd.registerCmd),
   (kwMemory, Cmd.memoryCmd), (kwVariables, Cmd.variablesCmd),
   (kwBacktrace, Cmd.backtraceCmd), (kwSymbol, Cmd.symbolCmd)]

/-- First-match prefix dispatch of handle_command on the command token:
the first keyword of the chain that the token is a prefix of wins; no
match prints Unknown command. -/
def dispatchCmd (command : List Char) : Cmd :=
  match cmdChain.find? (fun p => isPref command p.1) with
  | some p => p.2
  | none => Cmd.unknownCmd

/-- Model of the std::string element access args[1][i] in the break
branch: std::string operator[] at a position equal to size() returns the
null character (and the position-1 read is reached only when the size is
at least 1 thanks to the short-circuit &&, so every reached read is the
defined at-or-before-size access). -/
def strAt (s : List Char) (i : ℕ) : Char :=
  s.getD i '\x00'

/-- Model of handle_command (minidbg.cpp lines 441-501) keeping track of
the std::vector indexing it performs: args comes from the getline split on
a space, args[0] is read unconditionally, and each branch reads the
operand positions the source reads (break reads args[1] and, in its
file:line sub-branch - first character not 0x and args[1] containing a
colon - splits args[1] on the colon and reads file_and_line[0] and
file_and_line[1]; symbol reads args[1]; register reads args[1] and then,
for read, args[2], and, for write, args[3] and args[2]; memory reads
args[2] before args[1] and, for write, args[3]).  An out-of-bounds
vector access (undefined behaviour in C++) is modelled as none;
otherwise the selected handler is returned. -/
def handle_command (line : List Char) : Option Cmd :=
  let args := splitGetline ' ' line
  match args.get? 0 with
  | none => none
  | some command =>
    match dispatchCmd command with
    | Cmd.breakCmd =>
      match args.get? 1 with
      | none => none
      | some a1 =>
        if strAt a1 0 = '0' ∧ strAt a1 1 = 'x' then some Cmd.breakCmd
        else if ':' ∈ a1 then
          match (splitGetline ':' a1).get? 0 with
          | none => none
          | some _ =>
            match (splitGetline ':' a1).get? 1 with
            | none => none
            | some _ => some Cmd.breakCmd
        else some Cmd.breakCmd
    | Cmd.registerCmd =>
      match args.get? 1 with
      | none => none
      | some a1 =>
        if isPref a1 kwDump then some Cmd.registerCmd
        else if isPref a1 kwRead then
          match args.get? 2 with
          | none => none
          | some _ => some Cmd.registerCmd
        else if isPref a1 kwWrite then
          match args.get? 3 with
          | none => none
          | some _ =>
            match args.get? 2 with
            | none => none
            | some _ => some Cmd.registerCmd
        else some Cmd.registerCmd
    | Cmd.memoryCmd =>
      match args.get? 2 with
      | none => none
      | some _ =>
        match args.get? 1 with
        | none => none
        | some a1 =>
          if isPref a1 kwWrite then
            match args.get? 3 with
            | none => none
            | some _ => some Cmd.memoryCmd
          else some Cmd.memoryCmd
    | Cmd.symbolCmd =>
      match args.get? 1 with
      | none => none
      | some _ => some Cmd.symbolCmd
    | c => some c

/-- The operands the dispatched branch of handle_command reads: args has
a first token and every vector position that branch indexes is present,
including, for the break file:line sub-branch, positions 0 and 1 of the
colon split of args[1]. -/
def operandsOk (args : List (List Char)) : Bool :=
  match args.get? 0 with
  | none => false
  | some command =>
    match dispatchCmd command with
    | Cmd.breakCmd =>
      match args.get? 1 with
      | none => false
      | some a1 =>
        if strAt a1 0 = '0' ∧ strAt a1 1 = 'x' then true
        else if ':' ∈ a1 then
          ((splitGetline ':' a1).get? 0).isSome &&
            ((splitGetline ':' a1).get? 1).isSome
        else true
    | Cmd.registerCmd =>
      match args.get? 1 with
      | none => false
      | some a1 =>
        if isPref a1 kwDump then true
        else if isPref a1 kwRead then (args.get? 2).isSome
        else if isPref a1 kwWrite then
          (args.get? 3).isSome && (args.get? 2).isSome
        else true
    | Cmd.memoryCmd =>
      match args.get? 2 with
      | none => false
      | some _ =>
        match args.get? 1 with
        | none => false
        | some a1 =>
          if isPref a1 kwWrite then (args.get? 3).isSome else true
    | Cmd.symbolCmd => (args.get? 1).isSome
    | _ => true

/-- The nine std::vector accesses vec[0] .. vec[8] the batch driver child
performs before execl (minidbg.cpp lines 661-664), modelled with checked
indexing. -/
def execArgsAccessed (toks : List (List Char)) : List (Option (List Char)) :=
  (List.range 9).map (fun i => toks.get? i)

/-- The advice-mode bookkeeping: the process-wide deduplication counter
last (minidbg.cpp line 20, an int that only ever holds 0 or a source line
number) and the per-line hit counter source_map (std::map<int,int> whose
keys are source line numbers), modelled as an association list with unique
keys. -/
structure AdviceState where
  last : ℕ
  hit : List (ℕ × ℕ)
deriving DecidableEq, Repr

/-- The find/insert-or-increment update source_map receives in
print_source_advice (minidbg.cpp lines 567-572): an absent line is mapped
to 1, a present line has its count incremented. -/
def bumpHit : List (ℕ × ℕ) → ℕ → List (ℕ × ℕ)
  | [], l => [(l, 1)]
  | p :: t, l => if p.1 = l then (p.1, p.2 + 1) :: t else p :: bumpHit t l

/-- Count recorded for line l in the hit map, 0 when absent. -/
def lookupHit (m : List (ℕ × ℕ)) (l : ℕ) : ℕ :=
  (((m.find? (fun p => p.1 = l)).map (fun p => p.2)).getD 0)

/-- Model of print_source_advice (minidbg.cpp lines 554-578): when the
line equals the tracked last line it returns without output; otherwise it
records the line as last, prints, and bumps the hit counter.  The boolean
of the result tells whether output was emitted. -/
def print_source_advice (st : AdviceState) (line : ℕ) : AdviceState × Bool :=
  if st.last = line then (st, false)
  else (AdviceState.mk line (bumpHit st.hit line), true)

/-- Model of the advice-state effect of one runAdvice call (minidbg.cpp
lines 592-618): the observed line events of the run are fed to
print_source_advice in order, and at the end last is reset to 0. -/
def runAdviceModel (st : AdviceState) (lines : List ℕ) : AdviceState :=
  AdviceState.mk 0
    ((lines.foldl (fun s l => (print_source_advice s l).1) st).hit)

/-- The key-set union the batch driver performs: iterate the hit map and
insert each key into the given set (minidbg.cpp lines 694-699 and
703-708). -/
def unionKeys (hit : List (ℕ × ℕ)) (s : Finset ℕ) : Finset ℕ :=
  hit.foldl (fun acc p => insert p.1 acc) s

/-- Model of the per-case classification of the batch driver (minidbg.cpp
lines 684-710): strLine is the expected line read from the batch file,
line is the first line of 1.txt; on equality the hit keys go to the
success set, otherwise (the source writes the exhaustive else-if
line != strLine) to the fail set; the hit map is cleared in both
branches.  Result: (success set, fail set, hit map) afterwards. -/
def classifyRun (strLine line : List Char) (hit : List (ℕ × ℕ))
    (success fail : Finset ℕ) : Finset ℕ × Finset ℕ × List (ℕ × ℕ) :=
  if line = strLine then (unionKeys hit success, fail, [])
  else (success, unionKeys hit fail, [])

/-- Model of the final report loop of main (minidbg.cpp lines 717-724):
the lines for which a likely-fault message is printed are the members of
fail_set whose lookup in success_set fails. -/
def analyzeReport (failS successS : Finset ℕ) : Finset ℕ :=
  failS.filter (fun n => n ∉ successS)

/-- Model of the exit code of main on its early paths (minidbg.cpp lines
639-651 and the fall-off-the-end return of the batch loop): fewer than
three argv entries return -1; a batch file that fails to open returns 0;
otherwise main falls off the end, which in C++ returns 0. -/
def mainExitCode (argc : ℕ) (fileOpens : Bool) : ℤ :=
  if argc < 3 then -1
  else if fileOpens = false then 0
  else 0

/-- The engine breakpoint table: the set of addresses that have a
breakpoint object, and the subset of them whose breakpoint is currently
enabled. -/
structure BpTable where
  addrs : Finset ℕ
  enabledA : Finset ℕ
deriving DecidableEq

/-- Model of step_over_breakpoint (minidbg.cpp lines 205-214): when the
current pc has an enabled breakpoint it is disabled, the single step runs
with it disabled, and it is re-enabled afterwards.  The result is the pair
(table during the single step, table on return). -/
def step_over_breakpoint (t : BpTable) (pc : ℕ) : BpTable × BpTable :=
  if pc ∈ t.addrs then
    if pc ∈ t.enabledA then
      (BpTable.mk t.addrs (t.enabledA.erase pc),
       BpTable.mk t.addrs (insert pc (t.enabledA.erase pc)))
    else (t, t)
  else (t, t)

/-- Model of single_step_instruction_with_breakpoint_check (minidbg.cpp
lines 278-290): with a breakpoint at pc it defers to
step_over_breakpoint, otherwise it single-steps with the table
untouched. -/
def single_step_with_check (t : BpTable) (pc : ℕ) : BpTable × BpTable :=
  if pc ∈ t.addrs then step_over_breakpoint t pc else (t, t)

/-- The breakpoint-installing loop of step_over (minidbg.cpp lines
227-233): walk the line entries of the enclosing function in order; every
address different from the current line address and without a breakpoint
gets one, and is recorded for removal.  Returns the table after the loop
and the recorded temporary addresses in order. -/
def installLineTemps (startA : ℕ) : Finset ℕ → List ℕ → Finset ℕ × List ℕ
  | bps, [] => (bps, [])
  | bps, a :: rest =>
    if a ≠ startA ∧ a ∉ bps then
      let p := installLineTemps startA (insert a bps) rest
      (p.1, a :: p.2)
    else installLineTemps startA bps rest

/-- Model of the breakpoint-table effect of step_over (minidbg.cpp lines
216-248): install the temporary line breakpoints, then a temporary
breakpoint at the return address when absent, then continue_execution;
the removal loop runs only when continue_execution returns normally
(contOk), since a C++ exception thrown from it skips the loop.  Result:
the breakpoint table at exit. -/
def step_over (bps : Finset ℕ) (lineAddrs : List ℕ) (startA retA : ℕ)
    (contOk : Bool) : Finset ℕ :=
  let p := installLineTemps startA bps lineAddrs
  let q := if retA ∉ p.1 then (insert retA p.1, p.2 ++ [retA]) else p
  if contOk then q.2.foldl (fun b a => b.erase a) q.1 else q.1

/-- Model of the breakpoint-table effect of step_out (minidbg.cpp lines
250-265): a temporary breakpoint at the return address when absent, then
continue_execution; the removal runs only when continue_execution returns
normally. -/
def step_out (bps : Finset ℕ) (retA : ℕ) (contOk : Bool) : Finset ℕ :=
  let q := if retA ∉ bps then (insert retA bps, true) else (bps, false)
  if contOk then (if q.2 then q.1.erase retA else q.1) else q.1

/-- si_code values dispatched by handle_sigtrap, as on Linux x86-64. -/
def SI_KERNEL : ℤ := 128

def TRAP_BRKPT : ℤ := 1

def TRAP_TRACE : ℤ := 2

/-- 2 ^ 64, the modulus of the uint64_t program counter. -/
def U64 : ℕ := 2 ^ 64

/-- Tracee-visible state handled by handle_sigtrap: the program counter
and the advice bookkeeping mutated by print_source_advice. -/
structure TrapState where
  pc : ℕ
  advice : AdviceState
deriving DecidableEq, Repr

/-- Output of one handle_sigtrap dispatch: the advice print for a
resolved line (with its emitted flag), silence for a single-step trap, or
the unknown-code diagnostic. -/
inductive TrapOut where
  | advicePrint (l : ℕ) (emitted : Bool)
  | silentStep
  | unknownCode (c : ℤ)
deriving DecidableEq, Repr

/-- Model of handle_sigtrap (minidbg.cpp lines 153-173).  SI_KERNEL and
TRAP_BRKPT share one case: the pc is decremented by one (uint64_t wrap),
resolved through the line table (lineOf, the debug-info environment;
failure is the std::out_of_range throw of get_line_entry_from_pc) and
handed to print_source_advice.  TRAP_TRACE returns silently; any other
code only prints a diagnostic. -/
def handle_sigtrap (lineOf : ℕ → Option ℕ) (code : ℤ) (st : TrapState) :
    Except Unit (TrapState × TrapOut) :=
  if code = SI_KERNEL ∨ code = TRAP_BRKPT then
    let pc2 := (st.pc + (U64 - 1)) % U64
    match lineOf pc2 with
    | none => Except.error ()
    | some l =>
      let r := print_source_advice st.advice l
      Except.ok (TrapState.mk pc2 r.1, TrapOut.advicePrint l r.2)
  else if code = TRAP_TRACE then Except.ok (st, TrapOut.silentStep)
  else Except.ok (st, TrapOut.unknownCode code)

/-- Concrete inputs used by the witness theorems below. -/
def c2Expected : List Char := "42".data

def c2Actual : List Char := "43".data

def c5Line : List Char := "./prog 1 2 3 4 5 6 7 8".data

def c9Line : List Char := "n 5".data

def c7LineOf : ℕ → Option ℕ := fun a => if a = 99 then some 7 else none

def c7St : TrapState := TrapState.mk 100 (AdviceState.mk 0 [])

lemma unionKeys_eq : ∀ (hit : List (ℕ × ℕ)) (s : Finset ℕ),
    unionKeys hit s = s ∪ (hit.map Prod.fst).toFinset
  | [], s => by simp [unionKeys]
  | p :: t, s => by
    have ih := unionKeys_eq t (insert p.1 s)
    simp only [unionKeys, List.foldl_cons] at ih ⊢
    rw [ih]
    ext x
    simp

/-- C1: after all batch cases are processed, a likely-fault message is
printed for line n if and only if n is in the fail set and not in the
success set; the reported suspicious set is exactly the set difference
fail minus success. -/
theorem C1_suspicious_is_fail_sdiff_success (failS successS : Finset ℕ) :
    analyzeReport failS successS = failS \ successS ∧
    ∀ n, n ∈ analyzeReport failS successS ↔ n ∈ failS ∧ n ∉ successS := by
  constructor
  · ext x
    simp [analyzeReport, Finset.mem_sdiff, Finset.mem_filter]
  · intro n
    simp [analyzeReport, Finset.mem_filter]

/-- C2: after a batch case, if the first line of 1.txt equals the expected
batch line then the hit-counter keys are unioned into the success set,
otherwise into the fail set, the other set is untouched, and the hit
counter is cleared in both cases. -/
theorem C2_classify_unions_keys_and_clears (strLine line : List Char)
    (hit : List (ℕ × ℕ)) (success fail : Finset ℕ) :
    (classifyRun strLine line hit success fail).2.2 = [] ∧
    (line = strLine →
      (classifyRun strLine line hit success fail).1
        = success ∪ (hit.map Prod.fst).toFinset ∧
      (classifyRun strLine line hit success fail).2.1 = fail) ∧
    (line ≠ strLine →
      (classifyRun strLine line hit success fail).2.1
        = fail ∪ (hit.map Prod.fst).toFinset ∧
      (classifyRun strLine line hit success fail).1 = success) := by
  by_cases h : line = strLine <;>
    simp [classifyRun, h, unionKeys_eq]



/-- Witness for C2 at concrete inputs: an equal pair feeds the success
set, a differing pair feeds the fail set. -/
theorem C2_classify_unions_keys_and_clears_witness :
    (classifyRun c2Expected c2Expected [(3, 1)] ∅ ∅).1
      = ∅ ∪ (([((3 : ℕ), (1 : ℕ))]).map Prod.fst).toFinset ∧
    (classifyRun c2Expected c2Actual [(3, 1)] ∅ ∅).2.1
      = ∅ ∪ (([((3 : ℕ), (1 : ℕ))]).map Prod.fst).toFinset :=
  ⟨((C2_classify_unions_keys_and_clears c2Expected c2Expected [(3, 1)] ∅ ∅).2.1
      rfl).1,
   ((C2_classify_unions_keys_and_clears c2Expected c2Actual [(3, 1)] ∅ ∅).2.2
      (by decide)).1⟩

/-- C6 counterexample: with both command-line arguments present (argc = 3)
but a batch file that cannot be opened, main returns 0; the claim demands
a nonzero exit code on that path. -/
theorem C6_counterexample_open_failure_returns_zero :
    mainExitCode 3 false = 0 := by decide

/-- C6 (amended): missing arguments exit with -1 (nonzero); a batch file
that cannot be opened makes main return immediately, but with exit code
0. -/
theorem C6_exit_code_paths (argc : ℕ) (b : Bool) :
    (argc < 3 → mainExitCode argc b = -1) ∧
    (¬ argc < 3 → mainExitCode argc false = 0) := by
  constructor
  · intro h
    simp [mainExitCode, h]
  · intro h
    simp [mainExitCode, h]

/-- Witness for C6 at concrete inputs. -/
theorem C6_exit_code_paths_witness :
    mainExitCode 2 true = -1 ∧ mainExitCode 3 false = 0 :=
  ⟨(C6_exit_code_paths 2 true).1 (by decide),
   (C6_exit_code_paths 3 false).2 (by decide)⟩

lemma all_isSome_range_get (n : ℕ) (l : List (List Char)) :
    (((List.range n).map (fun i => l.get? i)).all Option.isSome = true) ↔
      n ≤ l.length := by
  constructor
  · intro h
    by_contra hlt
    push_neg at hlt
    have hmem : l.get? l.length ∈ (List.range n).map (fun i => l.get? i) :=
      List.mem_map.mpr ⟨l.length, List.mem_range.mpr hlt, rfl⟩
    have hsome := List.all_eq_true.mp h _ hmem
    simp [List.get?_eq_getElem?] at hsome
  · intro h
    apply List.all_eq_true.mpr
    intro x hx
    rcases List.mem_map.mp hx with ⟨i, hi, rfl⟩
    have hilt : i < l.length := lt_of_lt_of_le (List.mem_range.mp hi) h
    simp [List.get?_eq_getElem?, List.getElem?_eq_getElem hilt]

lemma map_range_get_eq_take (l : List (List Char)) :
    ∀ n, n ≤ l.length →
      (List.range n).map (fun i => l.get? i) = (l.take n).map some := by
  intro n
  induction n with
  | zero => simp
  | succ m ih =>
    intro h
    have hm : m < l.length := lt_of_lt_of_le (Nat.lt_succ_self m) h
    rw [List.range_succ, List.map_append, ih (le_of_lt hm), List.take_succ,
      List.map_append]
    simp [List.get?_eq_getElem?, List.getElem?_eq_getElem hm]

/-- C5: the batch-driver child reads token positions 0 through 8 of the
strtok split of the input line unconditionally (nine vector accesses, so
argv[0] plus exactly eight positional arguments); all of these accesses
are within bounds precisely when the line has at least nine tokens, in
which case the nine accessed values are exactly the first nine tokens. -/
theorem C5_exec_reads_tokens_zero_to_eight (line : List Char) :
    (execArgsAccessed (strtokSplit ' ' line)).length = 9 ∧
    ((execArgsAccessed (strtokSplit ' ' line)).all Option.isSome = true ↔
      9 ≤ (strtokSplit ' ' line).length) ∧
    (9 ≤ (strtokSplit ' ' line).length →
      execArgsAccessed (strtokSplit ' ' line)
        = ((strtokSplit ' ' line).take 9).map some) := by
  refine ⟨by simp [execArgsAccessed], ?_, ?_⟩
  · exact all_isSome_range_get 9 (strtokSplit ' ' line)
  · intro h
    exact map_range_get_eq_take (strtokSplit ' ' line) 9 h


/-- Witness for C5: a batch line with exactly nine tokens makes every
access in bounds and the child argv is the nine tokens. -/
theorem C5_exec_reads_tokens_zero_to_eight_witness :
    execArgsAccessed (strtokSplit ' ' c5Line)
      = ((strtokSplit ' ' c5Line).take 9).map some :=
  (C5_exec_reads_tokens_zero_to_eight c5Line).2.2 (by decide)

lemma find?_eq_some_of_unique {α : Type} (p : α → Bool) :
    ∀ (l : List α) (x : α), x ∈ l → p x = true →
      (∀ y ∈ l, p y = true → y = x) → l.find? p = some x
  | [], x, hx, _, _ => absurd hx (List.not_mem_nil x)
  | a :: t, x, hx, hpx, huniq => by
    by_cases hpa : p a = true
    · have hax : a = x := huniq a (List.mem_cons_self a t) hpa
      rw [List.find?_cons_of_pos _ hpa, hax]
    · have hxt : x ∈ t := by
        rcases List.mem_cons.mp hx with h | h
        · exact absurd (h ▸ hpx) hpa
        · exact h
      rw [List.find?_cons_of_neg _ (by simpa using hpa)]
      exact find?_eq_some_of_unique p t x hxt hpx
        (fun y hy hpy => huniq y (List.mem_cons_of_mem a hy) hpy)

/-- C9 counterexample: the full word continue is a prefix of exactly one
member of the claimed command set, yet the dispatcher sends it to the
Unknown command branch rather than to continue_execution, because the
keyword tested by the chain is cont and is_prefix rejects a longer
string. -/
theorem C9_counterexample_continue_not_dispatched :
    (([("continue".data), kwBreak, kwStep, kwNext, kwFinish, kwStepi,
       kwStatus, kwRegister, kwMemory, kwVariables, kwBacktrace,
       kwSymbol]).countP
        (fun k => isPref ("continue".data) k) = 1) ∧
    dispatchCmd ("continue".data) = Cmd.unknownCmd ∧
    Cmd.unknownCmd ≠ Cmd.cont := by
  refine ⟨by decide, by decide, by decide⟩

/-- C9 (amended): handle_command tokenizes the line on spaces and
dispatches its first token by prefix match against the chain keywords
cont, break, step, next, finish, stepi, status, register, memory,
variables, backtrace, symbol (the chain keyword for the continue command
is cont, not continue): a token that is a prefix of exactly one chain
keyword dispatches to the handler of that keyword. -/
theorem C9_unique_pref_dispatch (line command k : List Char) (c : Cmd)
    (_htok : (splitGetline ' ' line).get? 0 = some command)
    (hmem : (k, c) ∈ cmdChain)
    (hpref : isPref command k = true)
    (huniq : ∀ p ∈ cmdChain, isPref command p.1 = true → p = (k, c)) :
    dispatchCmd command = c := by
  have hfind : cmdChain.find? (fun p => isPref command p.1) = some (k, c) :=
    find?_eq_some_of_unique _ cmdChain (k, c) hmem hpref huniq
  simp [dispatchCmd, hfind]


/-- Witness for C9: the token n is a prefix of exactly the keyword next
and dispatches to step_over. -/
theorem C9_unique_pref_dispatch_witness :
    dispatchCmd ("n".data) = Cmd.nextCmd :=
  C9_unique_pref_dispatch c9Line ("n".data) kwNext Cmd.nextCmd
    (by decide) (by decide) (by decide) (by decide)


/-- C10: handle_command indexes its token vectors unconditionally: the
empty line reads args[0] of an empty vector, break without an argument
reads args[1], break with the operand x: reads position 1 of the
one-element colon split of args[1], memory without an address reads
args[2], register write without a value reads args[3] - all out of
bounds; and whenever the line supplies a first token together with every
vector position the dispatched branch reads (operandsOk), the
interpreter is total. -/
theorem C10_handle_command_unconditional_indexing :
    handle_command [] = none ∧
    handle_command kwBreak = none ∧
    handle_command ("break x:".data) = none ∧
    handle_command kwMemory = none ∧
    handle_command ("register write rax".data) = none ∧
    ∀ line : List Char, operandsOk (splitGetline ' ' line) = true →
      (handle_command line).isSome = true := by
  refine ⟨by decide, by decide, by decide, by decide, by decide, ?_⟩
  intro line h
  simp only [handle_command, operandsOk, List.get?_eq_getElem?] at h ⊢
  rcases h0 : (splitGetline ' ' line)[0]? with _ | command
  · rw [h0] at h
    simp at h
  · rw [h0] at h
    dsimp only at h ⊢
    rcases hc : dispatchCmd command with
      _ | _ | _ | _ | _ | _ | _ | _ | _ | _ | _ | _ | _ <;>
      rw [hc] at h <;> dsimp only at h ⊢ <;> try rfl
    case breakCmd =>
      rcases h1 : (splitGetline ' ' line)[1]? with _ | a1 <;> rw [h1] at h <;>
        dsimp only at h ⊢
      · simp at h
      · by_cases hx : strAt a1 0 = '0' ∧ strAt a1 1 = 'x'
        · simp [hx]
        · by_cases hcol : ':' ∈ a1
          · simp only [hx, hcol] at h ⊢
            simp only [if_true, if_false, Bool.false_eq_true, ite_false,
              ite_true] at h ⊢
            rcases hf0 : (splitGetline ':' a1)[0]? with _ | f0 <;>
              rw [hf0] at h <;> dsimp only at h ⊢
            · simp at h
            · rcases hf1 : (splitGetline ':' a1)[1]? with _ | f1 <;>
                rw [hf1] at h <;> simp_all
          · simp [hx, hcol]
    case registerCmd =>
      rcases h1 : (splitGetline ' ' line)[1]? with _ | a1 <;> rw [h1] at h <;>
        dsimp only at h ⊢
      · simp at h
      · by_cases hd : isPref a1 kwDump = true
        · simp [hd]
        · by_cases hrd : isPref a1 kwRead = true
          · simp only [hd, hrd] at h ⊢
            simp only [if_true, if_false, Bool.false_eq_true, ite_false,
              ite_true] at h ⊢
            rcases h2 : (splitGetline ' ' line)[2]? with _ | a2 <;>
              rw [h2] at h <;> simp_all
          · by_cases hw : isPref a1 kwWrite = true
            · simp only [hd, hrd, hw] at h ⊢
              simp only [if_true, if_false, Bool.false_eq_true, ite_false,
                ite_true] at h ⊢
              rcases h3 : (splitGetline ' ' line)[3]? with _ | a3 <;>
                rw [h3] at h <;> dsimp only at h ⊢
              · simp at h
              · rcases h2 : (splitGetline ' ' line)[2]? with _ | a2 <;>
                  rw [h2] at h <;> simp_all
            · simp [hd, hrd, hw]
    case memoryCmd =>
      rcases h2 : (splitGetline ' ' line)[2]? with _ | a2 <;> rw [h2] at h <;>
        dsimp only at h ⊢
      · simp at h
      · rcases h1 : (splitGetline ' ' line)[1]? with _ | a1 <;> rw [h1] at h <;>
          dsimp only at h ⊢
        · simp at h
        · by_cases hw : isPref a1 kwWrite = true
          · simp only [hw] at h ⊢
            simp only [if_true, ite_true] at h ⊢
            rcases h3 : (splitGetline ' ' line)[3]? with _ | a3 <;>
              rw [h3] at h <;> simp_all
          · simp [hw]
    case symbolCmd =>
      rcases h1 : (splitGetline ' ' line)[1]? with _ | a1 <;> rw [h1] at h <;>
        dsimp only at h ⊢
      · simp at h
      · rfl

/-- Witness for C10: the line cont supplies a first token and its branch
reads no operand, so the interpreter succeeds. -/
theorem C10_handle_command_unconditional_indexing_witness :
    (handle_command kwCont).isSome = true :=
  C10_handle_command_unconditional_indexing.2.2.2.2.2 kwCont (by decide)

lemma lookupHit_bumpHit : ∀ (m : List (ℕ × ℕ)) (l : ℕ),
    lookupHit (bumpHit m l) l = lookupHit m l + 1
  | [], l => by simp [bumpHit, lookupHit, List.find?]
  | p :: t, l => by
    by_cases h : p.1 = l
    · simp [bumpHit, h, lookupHit, List.find?]
    · have ht := lookupHit_bumpHit t l
      simp only [bumpHit, h, if_false, ite_false]
      simp only [lookupHit, List.find?] at ht ⊢
      have hpl : (decide (p.1 = l)) = false := by simp [h]
      rw [hpl]
      exact ht

/-- C8: in advice mode a print_source_advice call with line L emits output
and increments hit[L] exactly when L differs from the tracked last line
(otherwise the state is unchanged and nothing is emitted); runAdvice
resets last to 0 at the end of each run, so the first (positive) source
line of the next run always differs from last and is counted. -/
theorem C8_advice_dedup_and_reset (st : AdviceState) (L : ℕ) :
    ((print_source_advice st L).2 = true ↔ L ≠ st.last) ∧
    (L ≠ st.last →
      (print_source_advice st L).1.last = L ∧
      lookupHit (print_source_advice st L).1.hit L = lookupHit st.hit L + 1) ∧
    (L = st.last →
      (print_source_advice st L).1 = st ∧ (print_source_advice st L).2 = false) ∧
    (∀ (st0 : AdviceState) (lines : List ℕ), (runAdviceModel st0 lines).last = 0) ∧
    (0 < L → ∀ st1 : AdviceState, st1.last = 0 →
      (print_source_advice st1 L).2 = true) := by
  refine ⟨?_, ?_, ?_, ?_, ?_⟩
  · by_cases h : st.last = L
    · simp [print_source_advice, h]
    · simp [print_source_advice, h]
      exact fun heq => h heq.symm
  · intro hne
    have h : ¬ st.last = L := fun heq => hne heq.symm
    simp [print_source_advice, h, lookupHit_bumpHit]
  · intro heq
    simp [print_source_advice, heq]
  · intro st0 lines
    simp [runAdviceModel]
  · intro hL st1 h1
    have h : ¬ st1.last = L := by
      rw [h1]
      omega
    simp [print_source_advice, h]

/-- Witness for C8 at a concrete state: with last reset to 0 and a fresh
line 7, the call emits, sets last to 7 and increments the hit count. -/
theorem C8_advice_dedup_and_reset_witness :
    (print_source_advice (AdviceState.mk 0 []) 7).2 = true ∧
    (print_source_advice (AdviceState.mk 0 []) 7).1.last = 7 ∧
    lookupHit (print_source_advice (AdviceState.mk 0 []) 7).1.hit 7
      = lookupHit ([] : List (ℕ × ℕ)) 7 + 1 := by
  have h := C8_advice_dedup_and_reset (AdviceState.mk 0 []) 7
  exact ⟨h.1.mpr (by decide), (h.2.1 (by decide)).1, (h.2.1 (by decide)).2⟩

lemma pc_decrement_mod (pc : ℕ) (h0 : 0 < pc) (h1 : pc < U64) :
    (pc + (U64 - 1)) % U64 = pc - 1 := by
  have hU : U64 = 18446744073709551616 := by norm_num [U64]
  rw [hU] at h1 ⊢
  omega

/-- C7: on SIGTRAP with si_code SI_KERNEL or TRAP_BRKPT, handle_sigtrap
decrements the pc by exactly one (uint64_t wrap), resolves the new pc to a
line entry and hands that line to the advice printer (throwing when no
line entry exists); on TRAP_TRACE it changes nothing and emits nothing;
on any other si_code it only prints the unknown-code diagnostic. -/
theorem C7_sigtrap_dispatch (lineOf : ℕ → Option ℕ) (code : ℤ) (st : TrapState) :
    ((code = SI_KERNEL ∨ code = TRAP_BRKPT) →
      (∀ l, lineOf ((st.pc + (U64 - 1)) % U64) = some l →
        handle_sigtrap lineOf code st =
          Except.ok
            (TrapState.mk ((st.pc + (U64 - 1)) % U64)
              (print_source_advice st.advice l).1,
             TrapOut.advicePrint l (print_source_advice st.advice l).2)) ∧
      (lineOf ((st.pc + (U64 - 1)) % U64) = none →
        handle_sigtrap lineOf code st = Except.error ()) ∧
      (0 < st.pc → st.pc < U64 → (st.pc + (U64 - 1)) % U64 = st.pc - 1)) ∧
    (code = TRAP_TRACE →
      handle_sigtrap lineOf code st = Except.ok (st, TrapOut.silentStep)) ∧
    (code ≠ SI_KERNEL → code ≠ TRAP_BRKPT → code ≠ TRAP_TRACE →
      handle_sigtrap lineOf code st = Except.ok (st, TrapOut.unknownCode code)) := by
  refine ⟨?_, ?_, ?_⟩
  · intro hcode
    refine ⟨?_, ?_, fun h0 h1 => pc_decrement_mod st.pc h0 h1⟩
    · intro l hl
      simp [handle_sigtrap, hcode, hl]
    · intro hl
      simp [handle_sigtrap, hcode, hl]
  · intro hcode
    subst hcode
    simp [handle_sigtrap, SI_KERNEL, TRAP_BRKPT, TRAP_TRACE]
  · intro h1 h2 h3
    have hne : ¬ (code = SI_KERNEL ∨ code = TRAP_BRKPT) := by
      intro hor
      rcases hor with h | h
      · exact h1 h
      · exact h2 h
    simp [handle_sigtrap, hne, h3]



/-- Witness for C7 at concrete inputs: a TRAP_BRKPT at pc 100 moves the
pc to 99, resolves line 7 and prints it; other codes leave the state
alone. -/
theorem C7_sigtrap_dispatch_witness :
    handle_sigtrap c7LineOf 1 c7St =
      Except.ok
        (TrapState.mk ((c7St.pc + (U64 - 1)) % U64)
          (print_source_advice c7St.advice 7).1,
         TrapOut.advicePrint 7 (print_source_advice c7St.advice 7).2) ∧
    (c7St.pc + (U64 - 1)) % U64 = c7St.pc - 1 ∧
    handle_sigtrap c7LineOf 2 c7St = Except.ok (c7St, TrapOut.silentStep) ∧
    handle_sigtrap c7LineOf 5 c7St = Except.ok (c7St, TrapOut.unknownCode 5) := by
  have h1 := C7_sigtrap_dispatch c7LineOf 1 c7St
  have h2 := C7_sigtrap_dispatch c7LineOf 2 c7St
  have h5 := C7_sigtrap_dispatch c7LineOf 5 c7St
  refine ⟨(h1.1 (Or.inr (by decide))).1 7 (by decide),
    (h1.1 (Or.inr (by decide))).2.2 (by decide) (by decide),
    h2.2.1 (by decide),
    h5.2.2 (by decide) (by decide) (by decide)⟩

/-- C4: for a single step issued through step_over_breakpoint or
single_step_instruction_with_breakpoint_check, the set of breakpoint
objects is untouched, at most the one breakpoint at the prior pc is
disabled while the step runs, and the table on return equals the table
before the call, so that breakpoint is re-enabled before control goes
back to the caller. -/
theorem C4_single_step_shadows_one_breakpoint (t : BpTable) (pc : ℕ) :
    (step_over_breakpoint t pc).2 = t ∧
    (step_over_breakpoint t pc).1.addrs = t.addrs ∧
    t.enabledA \ (step_over_breakpoint t pc).1.enabledA ⊆ {pc} ∧
    (single_step_with_check t pc).2 = t ∧
    (single_step_with_check t pc).1.addrs = t.addrs ∧
    t.enabledA \ (single_step_with_check t pc).1.enabledA ⊆ {pc} := by
  have hmain :
      (step_over_breakpoint t pc).2 = t ∧
      (step_over_breakpoint t pc).1.addrs = t.addrs ∧
      t.enabledA \ (step_over_breakpoint t pc).1.enabledA ⊆ {pc} := by
    obtain ⟨A, E⟩ := t
    simp only [step_over_breakpoint]
    by_cases ha : pc ∈ A
    · by_cases he : pc ∈ E
      · simp only [ha, he, if_true, ite_true]
        refine ⟨?_, trivial, ?_⟩
        · simp [Finset.insert_erase he]
        · intro x hx
          simp only [Finset.mem_sdiff, Finset.mem_erase] at hx
          simp only [Finset.mem_singleton]
          by_contra hne
          exact hx.2 ⟨hne, hx.1⟩
      · simp [ha, he]
    · simp [ha]
  refine ⟨hmain.1, hmain.2.1, hmain.2.2, ?_, ?_, ?_⟩ <;>
    simp only [single_step_with_check] <;> by_cases ha : pc ∈ t.addrs <;>
    simp [ha, hmain.1, hmain.2.1, hmain.2.2]

lemma foldl_erase_eq_sdiff : ∀ (l : List ℕ) (b : Finset ℕ),
    l.foldl (fun x y => x.erase y) b = b \ l.toFinset
  | [], b => by simp
  | a :: t, b => by
    rw [List.foldl_cons, foldl_erase_eq_sdiff t (b.erase a)]
    ext x
    simp only [Finset.mem_sdiff, Finset.mem_erase, List.toFinset_cons,
      Finset.mem_insert, List.mem_toFinset]
    tauto

lemma installLineTemps_spec (startA : ℕ) : ∀ (l : List ℕ) (bps : Finset ℕ),
    (installLineTemps startA bps l).1
      = bps ∪ ((installLineTemps startA bps l).2).toFinset ∧
    ∀ a ∈ (installLineTemps startA bps l).2, a ∉ bps
  | [], bps => by simp [installLineTemps]
  | a :: rest, bps => by
    by_cases h : a ≠ startA ∧ a ∉ bps
    · obtain ⟨ih1, ih2⟩ := installLineTemps_spec startA rest (insert a bps)
      simp only [installLineTemps, if_pos h]
      constructor
      · rw [ih1]
        ext x
        simp only [List.toFinset_cons, Finset.mem_union, Finset.mem_insert,
          List.mem_toFinset]
        tauto
      · intro x hx
        rcases List.mem_cons.mp hx with rfl | hx'
        · exact h.2
        · intro hxb
          exact ih2 x hx' (Finset.mem_insert_of_mem hxb)
    · simp only [installLineTemps, if_neg h]
      exact installLineTemps_spec startA rest bps

/-- C3 counterexample: starting from an empty breakpoint table, one line
address 10 distinct from the current line address 5 and a fresh return
address 20, a step_over call whose continue_execution exits by throwing
(the removal loop is plain code after the call, not scoped cleanup)
leaves the temporary breakpoints in the table, which therefore does not
equal the table before the call. -/
theorem C3_counterexample_exceptional_exit_leaks :
    step_over ∅ [10] 5 20 false ≠ ∅ := by decide

/-- C3 (amended): when continue_execution returns normally, step_over and
step_out leave the breakpoint table exactly as it was before the call
(every temporary breakpoint removed, no pre-existing one removed); when
continue_execution exits by an exception the temporary breakpoints stay
installed, though even then no pre-existing breakpoint is lost. -/
theorem C3_step_over_out_restore_table (bps : Finset ℕ) (lineAddrs : List ℕ)
    (startA retA : ℕ) :
    step_over bps lineAddrs startA retA true = bps ∧
    step_out bps retA true = bps ∧
    bps ⊆ step_over bps lineAddrs startA retA false ∧
    bps ⊆ step_out bps retA false := by
  obtain ⟨hspec, hfresh⟩ := installLineTemps_spec startA lineAddrs bps
  have hfresh' : ∀ x ∈ ((installLineTemps startA bps lineAddrs).2).toFinset,
      x ∉ bps := fun x hx => hfresh x (List.mem_toFinset.mp hx)
  refine ⟨?_, ?_, ?_, ?_⟩
  · simp only [step_over]
    by_cases hr : retA ∉ (installLineTemps startA bps lineAddrs).1
    · rw [if_pos hr]
      simp only [if_true, ite_true]
      rw [foldl_erase_eq_sdiff]
      rw [hspec] at hr
      have hrb : retA ∉ bps := fun hx => hr (Finset.mem_union_left _ hx)
      have hrt : retA ∉ (installLineTemps startA bps lineAddrs).2 :=
        fun hx => hr (Finset.mem_union_right _ (List.mem_toFinset.mpr hx))
      rw [hspec]
      ext x
      have hfx : x ∈ (installLineTemps startA bps lineAddrs).2 → x ∉ bps :=
        hfresh x
      have hxr : x ∈ bps → x ≠ retA := fun hb he => hrb (he ▸ hb)
      simp
      tauto
    · rw [if_neg hr]
      simp only [if_true, ite_true]
      rw [foldl_erase_eq_sdiff, hspec]
      ext x
      have hfx : x ∈ (installLineTemps startA bps lineAddrs).2 → x ∉ bps :=
        hfresh x
      simp
      tauto
  · simp only [step_out]
    by_cases hr : retA ∉ bps
    · rw [if_pos hr]
      simp only [if_true, ite_true]
      exact Finset.erase_insert hr
    · rw [if_neg hr]
      simp
  · simp only [step_over]
    by_cases hr : retA ∉ (installLineTemps startA bps lineAddrs).1
    · rw [if_pos hr]
      simp only [Bool.false_eq_true, if_false, ite_false]
      intro x hx
      have hx1 : x ∈ (installLineTemps startA bps lineAddrs).1 := by
        rw [hspec]
        exact Finset.mem_union_left _ hx
      exact Finset.mem_insert_of_mem hx1
    · rw [if_neg hr]
      simp only [Bool.false_eq_true, if_false, ite_false]
      intro x hx
      rw [hspec]
      exact Finset.mem_union_left _ hx
  · simp only [step_out]
    by_cases hr : retA ∉ bps
    · rw [if_pos hr]
      simp only [Bool.false_eq_true, if_false, ite_false]
      exact Finset.subset_insert _ _
    · rw [if_neg hr]
      simp
